import Mathlib

/-!
Verification of the Sentinel validation/sandboxing layer.

This file gives a shallow embedding of the security-relevant code of the
Sentinel repository (src/utils/validator.ts and the regex screening and
metric extraction logic of src/tools/pm2.ts) and proves the spec claims
about it.

Modelling conventions:
* JavaScript strings are modelled as Lean `String`s, with all primitive
  operations (trim, split, startsWith, includes, slice) re-implemented by
  structural recursion over `String.toList` so that every definition
  evaluates inside the kernel.  The implementations follow the ECMAScript
  semantics of the primitives used by the source (on the ASCII inputs the
  validator deals with, `String.length` agrees with the UTF-16 length and
  `Char.isWhitespace` agrees with the whitespace classes actually exercised).
* Node's `path` module (posix flavour, the deployment target) is embedded
  segment-wise, following the `normalizeString`/`resolve`/`normalize`/
  `basename` algorithms of Node's `lib/path.js`.
* `process.cwd()` is ambient state in the source; it is passed explicitly
  as a `procCwd` argument.
* The host regex engine (`new RegExp(p)` compilation success) is an
  external collaborator; it is passed as an explicit oracle
  `compiles : String → Bool` where needed.  The nine `DANGEROUS_PATTERNS`
  regexes of validator.ts are pure literal matches (e.g. `/\$\(/` holds
  exactly on strings containing `$(`), so they are embedded as substring
  tests together with their `source` text used in the error message.
-/

namespace Sentinel

/-- Result type of every validator, mirroring `ValidationResult` of
validator.ts: `valid` plus an optional `error` message. -/
structure ValidationResult where
  valid : Bool
  error : Option String
deriving DecidableEq, Repr

/-! ### JavaScript string primitives, re-implemented structurally -/

/-- `startsList p l` : the char list `p` is an initial segment of `l`
(JS `String.prototype.startsWith` on char lists). -/
def startsList : List Char → List Char → Bool
  | [], _ => true
  | _ :: _, [] => false
  | a :: as, b :: bs => a == b && startsList as bs

/-- JS `s.startsWith(p)`. -/
def jsStartsWith (s p : String) : Bool := startsList p.toList s.toList

/-- `occursIn n h` : the char list `n` occurs contiguously inside `h`
(JS `String.prototype.includes` / a regex made only of literals). -/
def occursIn (n : List Char) : List Char → Bool
  | [] => n.isEmpty
  | h@(_ :: t) => startsList n h || occursIn n t

/-- JS `s.includes(sub)`. -/
def containsStr (s sub : String) : Bool := occursIn sub.toList s.toList

/-- JS `String.prototype.trim`. -/
def jsTrim (s : String) : String :=
  String.mk (((s.toList.dropWhile Char.isWhitespace).reverse.dropWhile
      Char.isWhitespace).reverse)

/-- Accumulator-style worker for `jsWords`. -/
def wordsAux (cur : List Char) : List Char → List String
  | [] => if cur.isEmpty then [] else [String.mk cur.reverse]
  | c :: cs =>
    if c.isWhitespace then
      if cur.isEmpty then wordsAux [] cs
      else String.mk cur.reverse :: wordsAux [] cs
    else wordsAux (c :: cur) cs

/-- JS `s.split(/\s+/)` as used by validator.ts: the source only ever
splits strings that were already trimmed, on which the split yields
exactly the maximal whitespace-free words. -/
def jsWords (s : String) : List String := wordsAux [] s.toList

/-- Worker for `splitCh`. -/
def splitChAux (sep : Char) (cur : List Char) : List Char → List String
  | [] => [String.mk cur.reverse]
  | c :: cs =>
    if c == sep then String.mk cur.reverse :: splitChAux sep [] cs
    else splitChAux sep (c :: cur) cs

/-- JS `s.split(sep)` for a one-character separator (used with `"\n"` by
pm2.ts and with `"/"` inside the path model). -/
def splitCh (sep : Char) (s : String) : List String := splitChAux sep [] s.toList

/-- `Array.prototype.join(sep)` / `String.intercalate`. -/
def joinSep (sep : String) : List String → String
  | [] => ""
  | [s] => s
  | s :: rest => s ++ sep ++ joinSep sep rest

/-! ### Node `path` (posix) -/

/-- One step of Node's `normalizeString`: fold a path segment onto the
stack of kept segments, eliminating `""`, `"."` and resolving `".."`
(dropping it at the root when `allowAboveRoot` is false). -/
def normStep (allowAboveRoot : Bool) (stack : List String) (seg : String) : List String :=
  if seg = "" || seg = "." then stack
  else if seg = ".." then
    match stack.getLast? with
    | some lastSeg =>
      if lastSeg ≠ ".." then stack.dropLast
      else if allowAboveRoot then stack ++ [".."] else stack
    | none => if allowAboveRoot then [".."] else []
  else stack ++ [seg]

/-- Node's `normalizeString(path, allowAboveRoot, '/')`: split on `/` and
fold the segments. -/
def normalizeSegs (allowAboveRoot : Bool) (p : String) : String :=
  joinSep "/" ((splitCh '/' p).foldl (normStep allowAboveRoot) [])

/-- One iteration of the right-to-left accumulation loop inside Node's
`path.posix.resolve`: skip empty components, prepend `p ++ "/"`, and stop
as soon as an absolute component has been found. -/
def resolveAccum (acc : String × Bool) (p : String) : String × Bool :=
  if acc.2 then acc
  else if p = "" then acc
  else (p ++ "/" ++ acc.1, jsStartsWith p "/")

/-- Node's `path.posix.resolve(...args)` with the ambient `process.cwd()`
made explicit: walk the arguments right to left (falling back to
`procCwd`), then normalize with `allowAboveRoot` exactly when no absolute
component was found. -/
def posixResolve (procCwd : String) (args : List String) : String :=
  let acc := (args.reverse ++ [procCwd]).foldl resolveAccum ("", false)
  let norm := normalizeSegs (!acc.2) acc.1
  if acc.2 then "/" ++ norm
  else if norm ≠ "" then norm else "."

/-- Node's `path.posix.normalize`. -/
def posixNormalize (p : String) : String :=
  if p = "" then "."
  else
    let isAbs := jsStartsWith p "/"
    let trailing := startsList ['/'] p.toList.reverse
    let n := normalizeSegs (!isAbs) p
    if n = "" then (if isAbs then "/" else if trailing then "./" else ".")
    else
      let n := if trailing then n ++ "/" else n
      if isAbs then "/" ++ n else n

/-- Node's `path.posix.basename(p)` (no extension argument): strip
trailing separators, then keep everything after the last remaining `/`. -/
def posixBasename (p : String) : String :=
  String.mk (((p.toList.reverse.dropWhile (· == '/')).takeWhile (· != '/')).reverse)

/-! ### validator.ts -/

/-- `ALLOWED_COMMANDS` of validator.ts, in declaration order (the order is
observable in the whitelist error message). -/
def ALLOWED_COMMANDS : List String :=
  ["ls", "pwd", "tree", "cat", "head", "tail", "df", "free", "nvidia-smi", "ps"]

/-- One entry of `DANGEROUS_PATTERNS`: the regex `source` text (used in
the denial message) together with the literal string the regex matches. -/
structure DangerPattern where
  source : String
  lit : String
deriving DecidableEq, Repr

/-- `DANGEROUS_PATTERNS` of validator.ts.  Each of the nine regexes is a
pure literal: `/\|/` tests for `|`, `/>/` for `>`, `/</` for `<`,
`/&&/` for `&&`, `/\|\|/` for `||`, `/;/` for `;`, `/\$\(/` for `$(`,
the backtick regex for a backtick, and the last one for a dollar-brace. -/
def DANGEROUS_PATTERNS : List DangerPattern :=
  [⟨"\\|", "|"⟩,
   ⟨">", ">"⟩,
   ⟨"<", "<"⟩,
   ⟨"&&", "&&"⟩,
   ⟨"\\|\\|", "||"⟩,
   ⟨";", ";"⟩,
   ⟨"\\$\\(", "$("⟩,
   ⟨"\x60", "\x60"⟩,
   ⟨"\\$\\\x7b", "$\x7b"⟩]

/-- `validateCommand` of validator.ts: trim, reject empty, take the first
whitespace-separated token, compare its basename against the whitelist. -/
def validateCommand (command : String) : ValidationResult :=
  let trimmed := jsTrim command
  if trimmed = "" then ⟨false, some "Empty command"⟩
  else
    let parts := jsWords trimmed
    let cmd := parts.headD ""
    let baseName := posixBasename cmd
    if ALLOWED_COMMANDS.contains baseName then ⟨true, none⟩
    else
      ⟨false, some ("Command \x27" ++ baseName ++ "\x27 is not in whitelist. Allowed: "
        ++ joinSep ", " ALLOWED_COMMANDS)⟩

/-- The first-match loop of `detectDangerousPatterns`. -/
def detectLoop (input : String) : List DangerPattern → ValidationResult
  | [] => ⟨true, none⟩
  | p :: rest =>
    if containsStr input p.lit then
      ⟨false, some ("Dangerous pattern detected: " ++ p.source)⟩
    else detectLoop input rest

/-- `detectDangerousPatterns` of validator.ts: test the raw string against
the pattern list in order; the first hit denies, citing the pattern source. -/
def detectDangerousPatterns (input : String) : ValidationResult :=
  detectLoop input DANGEROUS_PATTERNS

/-- JS `basePath || procCwd`: the fallback is taken when `basePath` is
`undefined` or the empty string (both falsy). -/
def jsOr (basePath : Option String) (procCwd : String) : String :=
  match basePath with
  | some b => if b = "" then procCwd else b
  | none => procCwd

/-- The `resolvedPath` computation of `validatePathSandbox`: an absolute
target resolves directly, a relative one against `basePath || cwd`. -/
def resolveTarget (procCwd : String) (basePath : Option String) (targetPath : String) : String :=
  if jsStartsWith targetPath "/" then posixResolve procCwd [targetPath]
  else posixResolve procCwd [jsOr basePath procCwd, targetPath]

/-- The `normalizedPath` of `validatePathSandbox`: resolve then normalize. -/
def canonTarget (procCwd : String) (basePath : Option String) (targetPath : String) : String :=
  posixNormalize (resolveTarget procCwd basePath targetPath)

/-- The `normalizedAllowed` computation inside the `some` callback of
`validatePathSandbox`: each allowed root is resolved and normalized. -/
def canonRoot (procCwd : String) (allowed : String) : String :=
  posixNormalize (posixResolve procCwd [allowed])

/-- The body of the `some` callback of `validatePathSandbox`: exact match
with a canonicalized root, or strict-subdirectory via `root + path.sep`. -/
def pathAllowedBy (procCwd normalizedPath : String) (allowed : String) : Bool :=
  let normalizedAllowed := canonRoot procCwd allowed
  normalizedPath == normalizedAllowed
    || jsStartsWith normalizedPath (normalizedAllowed ++ "/")

/-- `validatePathSandbox` of validator.ts. -/
def validatePathSandbox (procCwd targetPath : String) (allowedPaths : List String)
    (basePath : Option String) : ValidationResult :=
  let normalizedPath := canonTarget procCwd basePath targetPath
  if allowedPaths.any (pathAllowedBy procCwd normalizedPath) then ⟨true, none⟩
  else
    ⟨false, some ("Path \x27" ++ normalizedPath ++ "\x27 is not within allowed paths: "
      ++ joinSep ", " allowedPaths)⟩

/-- `extractPathsFromArgs` of validator.ts: skip `-`-options, keep tokens
that start with `/` or `.` or contain a `/`. -/
def extractPathsFromArgs (args : List String) : List String :=
  args.filter (fun arg =>
    !jsStartsWith arg "-"
      && (jsStartsWith arg "/" || jsStartsWith arg "." || containsStr arg "/"))

/-- The final for-loop of `validateShellCommand`: validate each extracted
path, returning the first failure. -/
def validatePathsLoop (procCwd : String) (allowedPaths : List String)
    (cwd : Option String) : List String → ValidationResult
  | [] => ⟨true, none⟩
  | p :: rest =>
    let r := validatePathSandbox procCwd p allowedPaths cwd
    if !r.valid then r else validatePathsLoop procCwd allowedPaths cwd rest

/-- JS truthiness of the optional `cwd` string: present and non-empty. -/
def cwdTruthy (cwd : Option String) : Bool :=
  match cwd with
  | some c => c ≠ ""
  | none => false

/-- `validateShellCommand` of validator.ts: whitelist, dangerous patterns,
optional cwd confinement, then confinement of every extracted path
argument (resolved relative to `cwd`). -/
def validateShellCommand (procCwd command : String) (allowedPaths : List String)
    (cwd : Option String) : ValidationResult :=
  let cmdResult := validateCommand command
  if !cmdResult.valid then cmdResult
  else
    let dangerResult := detectDangerousPatterns command
    if !dangerResult.valid then dangerResult
    else
      let cwdResult :=
        if cwdTruthy cwd then
          validatePathSandbox procCwd ((cwd.getD "")) allowedPaths none
        else ⟨true, none⟩
      if !cwdResult.valid then cwdResult
      else
        let parts := jsWords (jsTrim command)
        let args := parts.drop 1
        let paths := extractPathsFromArgs args
        validatePathsLoop procCwd allowedPaths cwd paths

/-! ### Regex safety screening (pm2.ts, `validateRegexSafety`) -/

/-- A regex quantifier character as used by the screening regexes. -/
def regexQuant (c : Char) : Bool := c == '+' || c == '*'

/-- Scanner for the tail of `/\([^)]*[+*][^)]*\)[+*]/` after an opening
parenthesis: inside the `)`‑free span a quantifier must occur (`seen`),
and the closing parenthesis must be followed by a quantifier. -/
def nestedQuantAfterParen (seen : Bool) : List Char → Bool
  | [] => false
  | c :: rest =>
    if c == ')' then
      seen && (match rest with
        | d :: _ => regexQuant d
        | [] => false)
    else nestedQuantAfterParen (seen || regexQuant c) rest

/-- `RegExp.prototype.test` of `/\([^)]*[+*][^)]*\)[+*]/` (the nested
quantifier check of pm2.ts): some `(` is followed, before the next `)`,
by a quantifier, and that `)` is itself followed by a quantifier. -/
def hasNestedQuant : List Char → Bool
  | [] => false
  | c :: rest => (c == '(' && nestedQuantAfterParen false rest) || hasNestedQuant rest

/-- `RegExp.prototype.test` of `/(\.\*){3,}/`: the pattern text contains
three consecutive `.*` occurrences. -/
def hasTripleDotStar (pattern : String) : Bool := containsStr pattern ".*.*.*"

/-- Scanner for the tail of `/\([^)]*\|[^)]*\)[+*]/` after an opening
parenthesis, analogous to `nestedQuantAfterParen` with `|` inside. -/
def altAfterParen (seen : Bool) : List Char → Bool
  | [] => false
  | c :: rest =>
    if c == ')' then
      seen && (match rest with
        | d :: _ => regexQuant d
        | [] => false)
    else altAfterParen (seen || c == '|') rest

/-- `RegExp.prototype.test` of `/\([^)]*\|[^)]*\)[+*]/` (the quantified
alternation check of pm2.ts). -/
def hasQuantifiedAlt : List Char → Bool
  | [] => false
  | c :: rest => (c == '(' && altAfterParen false rest) || hasQuantifiedAlt rest

/-- The `dangerousPatterns` loop of `validateRegexSafety`: true iff one of
the three structural screening regexes matches the pattern text. -/
def regexDangerHit (pattern : String) : Bool :=
  hasNestedQuant pattern.toList || hasTripleDotStar pattern
    || hasQuantifiedAlt pattern.toList

/-- `validateRegexSafety` of pm2.ts.  The final `new RegExp(pattern)`
compilation attempt is host-engine behaviour and is abstracted as the
`compiles` oracle: the source returns the invalid-regex error exactly when
compilation throws. -/
def validateRegexSafety (compiles : String → Bool) (pattern : String) : ValidationResult :=
  if pattern.length > 200 then ⟨false, some "正则表达式过长（最大 200 字符）"⟩
  else if regexDangerHit pattern then ⟨false, some "正则表达式包含潜在危险模式"⟩
  else if !compiles pattern then ⟨false, some "无效的正则表达式"⟩
  else ⟨true, none⟩

/-! ### Metric extraction (pm2.ts, `pm2_metrics` handler) -/

/-- One extracted sample: `{ value, lineNumber }` of the handler.  The
line number is an integer because the source formula can go non-positive. -/
structure MetricValue where
  value : String
  lineNumber : Int
deriving DecidableEq, Repr

/-- Per-metric result: the pushed samples and the `latest` value
(`null` encoded as `none`). -/
structure MetricResult where
  values : List MetricValue
  latest : Option String
deriving DecidableEq, Repr

/-- JS `line.slice(0, maxLineLength)` with `maxLineLength = 10000`. -/
def jsLineCap (l : String) : String := String.mk (l.toList.take 10000)

/-- The guard `match && match[1]` of the extraction loop, for a matcher
`m` that returns the value of capture group 1 of `line.match(regex)`
(`none` when there is no match or the group did not participate): the
sample is recorded when the group value is a non-empty string. -/
def mguard (m : String → Option String) (l : String) : Bool :=
  match m (jsLineCap l) with
  | some g => g != ""
  | none => false

/-- The recorded `match[1]` value for a line that passed `mguard`. -/
def mval (m : String → Option String) (l : String) : String :=
  match m (jsLineCap l) with
  | some g => g
  | none => ""

/-- JS `xs.slice(-n)`: the trailing `n` elements (the whole array when
`n = 0`, since `-0` is `0`). -/
def sliceLastJs (n : Nat) (xs : List String) : List String :=
  if n = 0 then xs else xs.drop (xs.length - n)

/-- The `logLines` array of the handler: split the log on newlines and
keep the trailing `lines`-sized window. -/
def metricsScanned (logContent : String) (lines : Nat) : List String :=
  sliceLastJs lines (splitCh '\n' logContent)

/-- The extraction for-loop of the handler: `scanLen` is
`logLines.length`, `window` the requested `lines`, `i` the loop index;
each recorded sample carries `logLines.length - lines + i + 1` as its
line number. -/
def metricLoop (m : String → Option String) (window scanLen : Nat) :
    Nat → List String → List MetricValue
  | _, [] => []
  | i, l :: rest =>
    if mguard m l then
      ⟨mval m l, (scanLen : Int) - (window : Int) + (i : Int) + 1⟩
        :: metricLoop m window scanLen (i + 1) rest
    else metricLoop m window scanLen (i + 1) rest

/-- The per-pattern body of the `pm2_metrics` handler (`extractMetrics` of
the spec, for one configured pattern): scan the trailing window and record
the samples together with the `latest` value. -/
def pm2MetricsOne (m : String → Option String) (logContent : String) (lines : Nat) :
    MetricResult :=
  let logLines := metricsScanned logContent lines
  let values := metricLoop m lines logLines.length 0 logLines
  ⟨values, (values.getLast?).map MetricValue.value⟩

/-! ### The matcher for the pattern `loss: ([\d.]+)` -/

/-- `dropStart p l` : `some rest` when `p` is an initial segment of `l`
with remainder `rest`. -/
def dropStart : List Char → List Char → Option (List Char)
  | [], cs => some cs
  | _ :: _, [] => none
  | p :: ps, c :: cs => if p == c then dropStart ps cs else none

/-- Character class `[\d.]` of the metric pattern. -/
def digitDot (c : Char) : Bool := c.isDigit || c == '.'

/-- Leftmost match of the regex `loss: ([\d.]+)` against a char list,
returning capture group 1: at each position try the literal `loss: `
followed by a non-empty greedy `[\d.]+` run, advancing one character on
failure — exactly the JS engine's behaviour for this pattern. -/
def lossScan : List Char → Option String
  | [] => none
  | cs@(_ :: rest) =>
    match dropStart "loss: ".toList cs with
    | some after =>
      let run := after.takeWhile digitDot
      if run.isEmpty then lossScan rest else some (String.mk run)
    | none => lossScan rest

/-- Group 1 of `line.match(/loss: ([\d.]+)/)`. -/
def lossMatch (line : String) : Option String := lossScan line.toList

/-! ### Helper lemmas -/

/-- The `valid` bit of `validatePathSandbox` is exactly the `some`
test of the source. -/
theorem validatePathSandbox_valid_eq_any (procCwd target : String) (roots : List String)
    (base : Option String) :
    (validatePathSandbox procCwd target roots base).valid
      = roots.any (pathAllowedBy procCwd (canonTarget procCwd base target)) := by
  unfold validatePathSandbox
  dsimp only
  split <;> simp_all

/-- When the whitelist check fails, `validateShellCommand` returns its
result verbatim. -/
theorem validateShellCommand_of_cmd_invalid (procCwd s : String) (roots : List String)
    (cwd : Option String) (h : (validateCommand s).valid = false) :
    validateShellCommand procCwd s roots cwd = validateCommand s := by
  unfold validateShellCommand
  simp [h]

/-- The path-argument loop succeeds when every extracted path passes the
sandbox check. -/
theorem validatePathsLoop_valid (procCwd : String) (roots : List String)
    (cwd : Option String) :
    ∀ ps : List String, (∀ p ∈ ps, (validatePathSandbox procCwd p roots cwd).valid = true) →
      validatePathsLoop procCwd roots cwd ps = ⟨true, none⟩ := by
  intro ps
  induction ps with
  | nil => intro _; rfl
  | cons p rest ih =>
    intro h
    have hp := h p (by simp)
    unfold validatePathsLoop
    simp only [hp, Bool.not_true, Bool.false_eq_true, if_false]
    exact ih (fun q hq => h q (List.mem_cons_of_mem _ hq))

/-- The dangerous-pattern loop denies, citing a pattern of the list, as
soon as one of the literals occurs in the input. -/
theorem detectLoop_of_any (s : String) :
    ∀ ps : List DangerPattern, ps.any (fun p => containsStr s p.lit) = true →
      (detectLoop s ps).valid = false
      ∧ ∃ p ∈ ps, detectLoop s ps
          = ⟨false, some ("Dangerous pattern detected: " ++ p.source)⟩ := by
  intro ps
  induction ps with
  | nil => intro h; simp at h
  | cons p rest ih =>
    intro h
    by_cases hp : containsStr s p.lit = true
    · refine ⟨?_, p, by simp, ?_⟩ <;> · unfold detectLoop; simp [hp]
    · have hrest : rest.any (fun q => containsStr s q.lit) = true := by
        simp only [List.any_cons, Bool.or_eq_true] at h
        tauto
      obtain ⟨h1, q, hq, h2⟩ := ih hrest
      have hloop : detectLoop s (p :: rest) = detectLoop s rest := by
        conv_lhs => rw [detectLoop]
        simp [hp]
      exact ⟨by rw [hloop]; exact h1, q, List.mem_cons_of_mem _ hq, by rw [hloop]; exact h2⟩

/-- The `valid` bit of `validateCommand` characterised: non-empty after
trimming, and the basename of the first token is whitelisted. -/
theorem validateCommand_valid_iff (s : String) :
    (validateCommand s).valid = true ↔
      (jsTrim s ≠ ""
        ∧ ALLOWED_COMMANDS.contains (posixBasename ((jsWords (jsTrim s)).headD "")) = true) := by
  unfold validateCommand
  dsimp only
  split_ifs with h1 h2 <;> simp_all

/-! ### Claims -/

/-- C1 (Path confinement): for every target, non-empty allowed-root list
and optional base, `validatePathSandbox` permits exactly when the
canonicalized target (resolved against the base or the working directory
when relative, with `.`/`..` eliminated) equals a canonicalized root or
extends one past a `/` separator; and the sibling `/data/ok2` is denied
against the root `/data/ok`. -/
theorem c1_path_confinement :
    (∀ (procCwd target : String) (roots : List String) (base : Option String),
      roots ≠ [] →
      ((validatePathSandbox procCwd target roots base).valid = true ↔
        ∃ r ∈ roots,
          canonTarget procCwd base target = canonRoot procCwd r
          ∨ jsStartsWith (canonTarget procCwd base target) (canonRoot procCwd r ++ "/") = true))
    ∧ (validatePathSandbox "/srv" "/data/ok2" ["/data/ok"] none).valid = false := by
  constructor
  · intro procCwd target roots base _
    rw [validatePathSandbox_valid_eq_any, List.any_eq_true]
    unfold pathAllowedBy
    simp only [Bool.or_eq_true, beq_iff_eq]
  · decide

/-- C1 witness: the strict subdirectory `/data/ok/x` of the allowed root
`/data/ok` is permitted, obtained through the characterisation. -/
theorem c1_path_confinement_witness :
    (validatePathSandbox "/srv" "/data/ok/x" ["/data/ok"] none).valid = true :=
  (c1_path_confinement.1 "/srv" "/data/ok/x" ["/data/ok"] none (by decide)).mpr
    ⟨"/data/ok", by decide, Or.inr (by decide)⟩

/-- C3 (End-to-end path escape): `cat /data/secrets/../../etc/passwd`
with allowed roots `["/data"]` is denied by path confinement (the
argument canonicalizes to `/etc/passwd`), although `cat` is whitelisted
and no dangerous pattern occurs. -/
theorem c3_path_escape_scenario :
    validateShellCommand "/srv" "cat /data/secrets/../../etc/passwd" ["/data"] none
      = ⟨false, some "Path \x27/etc/passwd\x27 is not within allowed paths: /data"⟩
    ∧ canonTarget "/srv" none "/data/secrets/../../etc/passwd" = "/etc/passwd"
    ∧ (validateCommand "cat /data/secrets/../../etc/passwd").valid = true
    ∧ (detectDangerousPatterns "cat /data/secrets/../../etc/passwd").valid = true := by
  decide

/-- C4: contrary to the claim (and to the repository README, which lists
`top` as whitelisted in exactly the `top -bn1` form), the whitelist of
src/utils/validator.ts does not contain `top` at all, so even `top -bn1`
is denied; `top` alone and other argument lists are denied as well. -/
theorem c4_top_always_denied :
    validateCommand "top -bn1"
      = ⟨false, some ("Command \x27top\x27 is not in whitelist. Allowed: "
          ++ "ls, pwd, tree, cat, head, tail, df, free, nvidia-smi, ps")⟩
    ∧ (validateShellCommand "/srv" "top -bn1" ["/data"] none).valid = false
    ∧ (validateShellCommand "/srv" "top" ["/data"] none).valid = false
    ∧ ALLOWED_COMMANDS.contains "top" = false := by
  decide

/-- C9 (Implicit option-argument exemption): a token beginning with `-`
is never extracted for path confinement, and consequently
`cat --file=/etc/passwd` is permitted against allowed roots `["/data"]`. -/
theorem c9_dash_tokens_exempt :
    (∀ (args : List String) (a : String), jsStartsWith a "-" = true →
      a ∉ extractPathsFromArgs args)
    ∧ validateShellCommand "/srv" "cat --file=/etc/passwd" ["/data"] none = ⟨true, none⟩ := by
  constructor
  · intro args a ha hmem
    unfold extractPathsFromArgs at hmem
    have := (List.mem_filter.mp hmem).2
    simp [ha] at this
  · decide

/-- C9 witness: the option token `--file=/etc/passwd` is exempt from
extraction even as the sole argument. -/
theorem c9_dash_tokens_exempt_witness :
    "--file=/etc/passwd" ∉ extractPathsFromArgs ["--file=/etc/passwd"] :=
  c9_dash_tokens_exempt.1 ["--file=/etc/passwd"] "--file=/etc/passwd" (by decide)

/-- C2 counterexample: on the claim's own example `ls; rm -rf /` the
denial does not name a dangerous-pattern class: the semicolon sticks to
the first token, whose basename `ls;` is not whitelisted, so the
whitelist check denies first and its message names no pattern. -/
theorem c2_counterexample_whitelist_denial :
    validateShellCommand "/srv" "ls; rm -rf /" ["/data"] none
      = ⟨false, some ("Command \x27ls;\x27 is not in whitelist. Allowed: "
          ++ "ls, pwd, tree, cat, head, tail, df, free, nvidia-smi, ps")⟩
    ∧ (DANGEROUS_PATTERNS.all (fun p =>
        (validateShellCommand "/srv" "ls; rm -rf /" ["/data"] none).error
          != some ("Dangerous pattern detected: " ++ p.source))) = true := by
  decide

/-- C2 (amended): every raw command containing one of the dangerous
literals is denied by `validateShellCommand`; `detectDangerousPatterns`
itself denies naming the source of a triggering pattern, and whenever the
whitelist check passes, the overall denial is exactly that named
dangerous-pattern denial. -/
theorem c2_dangerous_patterns_denied (procCwd s : String) (roots : List String)
    (cwd : Option String)
    (h : DANGEROUS_PATTERNS.any (fun p => containsStr s p.lit) = true) :
    (validateShellCommand procCwd s roots cwd).valid = false
    ∧ (detectDangerousPatterns s).valid = false
    ∧ (∃ p ∈ DANGEROUS_PATTERNS, detectDangerousPatterns s
        = ⟨false, some ("Dangerous pattern detected: " ++ p.source)⟩)
    ∧ ((validateCommand s).valid = true →
        validateShellCommand procCwd s roots cwd = detectDangerousPatterns s) := by
  obtain ⟨hd, p, hp, hdet⟩ := detectLoop_of_any s DANGEROUS_PATTERNS h
  have hd' : (detectDangerousPatterns s).valid = false := hd
  have hshell : (validateCommand s).valid = true →
      validateShellCommand procCwd s roots cwd = detectDangerousPatterns s := by
    intro hc
    unfold validateShellCommand
    simp [hc, hd']
  refine ⟨?_, hd', ⟨p, hp, hdet⟩, hshell⟩
  by_cases hc : (validateCommand s).valid = true
  · rw [hshell hc]; exact hd'
  · have hcf : (validateCommand s).valid = false := by
      cases hv : (validateCommand s).valid
      · rfl
      · exact absurd hv hc
    rw [validateShellCommand_of_cmd_invalid procCwd s roots cwd hcf]
    exact hcf

/-- C2 witness: `ls ; rm -rf /` (whitelisted first token `ls`) is denied
and the denial is the dangerous-pattern denial naming `;`. -/
theorem c2_dangerous_patterns_denied_witness :
    (validateShellCommand "/srv" "ls ; rm -rf /" ["/data"] none).valid = false
    ∧ validateShellCommand "/srv" "ls ; rm -rf /" ["/data"] none
        = ⟨false, some "Dangerous pattern detected: ;"⟩ := by
  have h := c2_dangerous_patterns_denied "/srv" "ls ; rm -rf /" ["/data"] none (by decide)
  refine ⟨h.1, ?_⟩
  rw [h.2.2.2 (by decide)]
  decide

/-- C5 (Whitelist check): `validateCommand` permits exactly the commands
whose trimmed line is non-empty and whose first token has a whitelisted
basename (so `/usr/bin/ls` and `ls` are judged identically and every
non-whitelisted leaf is denied regardless of arguments); an all-whitespace
line is denied as `Empty command`; and a command with a whitelisted leaf,
no dangerous pattern, a confined cwd (when truthy) and only confined
extracted path arguments is permitted by `validateShellCommand`. -/
theorem c5_whitelist_check :
    (∀ s : String, (validateCommand s).valid = true ↔
      (jsTrim s ≠ ""
        ∧ ALLOWED_COMMANDS.contains (posixBasename ((jsWords (jsTrim s)).headD "")) = true))
    ∧ validateCommand "/usr/bin/ls" = validateCommand "ls"
    ∧ (∀ s : String, jsTrim s = "" → validateCommand s = ⟨false, some "Empty command"⟩)
    ∧ (∀ (procCwd s : String) (roots : List String) (cwd : Option String),
        ALLOWED_COMMANDS.contains (posixBasename ((jsWords (jsTrim s)).headD "")) = false →
        (validateShellCommand procCwd s roots cwd).valid = false)
    ∧ (∀ (procCwd s : String) (roots : List String) (cwd : Option String),
        (validateCommand s).valid = true →
        (detectDangerousPatterns s).valid = true →
        (cwdTruthy cwd = true →
          (validatePathSandbox procCwd (cwd.getD "") roots none).valid = true) →
        (∀ p ∈ extractPathsFromArgs ((jsWords (jsTrim s)).drop 1),
          (validatePathSandbox procCwd p roots cwd).valid = true) →
        validateShellCommand procCwd s roots cwd = ⟨true, none⟩) := by
  refine ⟨validateCommand_valid_iff, by decide, ?_, ?_, ?_⟩
  · intro s h
    unfold validateCommand
    simp [h]
  · intro procCwd s roots cwd h
    have hcf : (validateCommand s).valid = false := by
      cases hv : (validateCommand s).valid
      · rfl
      · have := (validateCommand_valid_iff s).mp hv
        rw [h] at this
        simp at this
    rw [validateShellCommand_of_cmd_invalid procCwd s roots cwd hcf]
    exact hcf
  · intro procCwd s roots cwd h1 h2 h3 h4
    unfold validateShellCommand
    simp only [h1, Bool.not_true, Bool.false_eq_true, if_false, h2]
    by_cases hct : cwdTruthy cwd = true
    · have hc := h3 hct
      simp only [hct, if_true, hc, Bool.not_true, Bool.false_eq_true, if_false]
      exact validatePathsLoop_valid procCwd roots cwd _ h4
    · have hcf : cwdTruthy cwd = false := by
        cases hv : cwdTruthy cwd
        · rfl
        · exact absurd hv hct
      simp only [hcf, Bool.false_eq_true, if_false, Bool.not_true]
      exact validatePathsLoop_valid procCwd roots cwd _ h4

/-- C5 witness: `/usr/bin/ls /data/x` with allowed roots `["/data"]` and
no cwd is permitted. -/
theorem c5_whitelist_check_witness :
    validateShellCommand "/srv" "/usr/bin/ls /data/x" ["/data"] none = ⟨true, none⟩ :=
  c5_whitelist_check.2.2.2.2 "/srv" "/usr/bin/ls /data/x" ["/data"] none
    (by decide) (by decide) (fun h => absurd h (by decide)) (by decide)

/-- C6 (Regex screening verdicts), for any compilation oracle that
accepts the benign pattern: over-long patterns are rejected; `(a+)+`,
the `(.*){3,}`-style repeat `.*.*.*`, and `(a|b)+` are each flagged as
dangerous before compilation is ever attempted; a pattern that fails to
compile (and passes the earlier checks) is flagged as an invalid
expression, as a returned value; and `error: (\d+)` is judged safe. -/
theorem c6_regex_screening (compiles : String → Bool)
    (hok : compiles "error: (\\d+)" = true) :
    (∀ p : String, 200 < p.length → (validateRegexSafety compiles p).valid = false)
    ∧ validateRegexSafety compiles "(a+)+" = ⟨false, some "正则表达式包含潜在危险模式"⟩
    ∧ validateRegexSafety compiles ".*.*.*" = ⟨false, some "正则表达式包含潜在危险模式"⟩
    ∧ validateRegexSafety compiles "(a|b)+" = ⟨false, some "正则表达式包含潜在危险模式"⟩
    ∧ (∀ p : String, p.length ≤ 200 → regexDangerHit p = false → compiles p = false →
        validateRegexSafety compiles p = ⟨false, some "无效的正则表达式"⟩)
    ∧ validateRegexSafety compiles "error: (\\d+)" = ⟨true, none⟩ := by
  refine ⟨?_, ?_, ?_, ?_, ?_, ?_⟩
  · intro p hp
    unfold validateRegexSafety
    rw [if_pos hp]
  · unfold validateRegexSafety
    rw [if_neg (by decide), if_pos (by decide)]
  · unfold validateRegexSafety
    rw [if_neg (by decide), if_pos (by decide)]
  · unfold validateRegexSafety
    rw [if_neg (by decide), if_pos (by decide)]
  · intro p hlen hdanger hcomp
    unfold validateRegexSafety
    rw [if_neg (by omega), if_neg (by simp [hdanger]), if_pos (by simp [hcomp])]
  · unfold validateRegexSafety
    rw [if_neg (by decide), if_neg (by decide), if_neg (by simp [hok])]

/-- C6 witness: instantiating the oracle with one that accepts exactly
the benign pattern, `error: (\d+)` is safe and the non-compiling `(` is
flagged invalid. -/
theorem c6_regex_screening_witness :
    validateRegexSafety (fun s => s == "error: (\\d+)") "error: (\\d+)" = ⟨true, none⟩
    ∧ validateRegexSafety (fun s => s == "error: (\\d+)") "(" = ⟨false, some "无效的正则表达式"⟩ := by
  have h := c6_regex_screening (fun s => s == "error: (\\d+)") (by decide)
  exact ⟨h.2.2.2.2.2, h.2.2.2.2.1 "(" (by decide) (by decide) (by decide)⟩

/-- C7 counterexample: `.+.+.+` contains three consecutive `.+`
wildcards, yet none of the three structural screening regexes matches it
(the repeat check `/(\.\*){3,}/` only covers literal `.*`), so with a
compiling oracle the pattern is judged safe. -/
theorem c7_counterexample_dotplus_not_flagged :
    regexDangerHit ".+.+.+" = false
    ∧ validateRegexSafety (fun _ => true) ".+.+.+" = ⟨true, none⟩ := by
  decide

/-- C7 (amended): every pattern containing three or more consecutive `.*`
wildcards is rejected (when not over-long, with the dangerous-pattern
message); `.+` runs are not covered by the structural screen. -/
theorem c7_triple_dotstar_rejected (compiles : String → Bool) (p : String)
    (h : containsStr p ".*.*.*" = true) :
    (validateRegexSafety compiles p).valid = false
    ∧ (p.length ≤ 200 →
        validateRegexSafety compiles p = ⟨false, some "正则表达式包含潜在危险模式"⟩) := by
  have hd : regexDangerHit p = true := by
    unfold regexDangerHit hasTripleDotStar
    simp [h]
  constructor
  · by_cases h1 : p.length > 200
    · unfold validateRegexSafety
      rw [if_pos h1]
    · unfold validateRegexSafety
      rw [if_neg h1, if_pos hd]
  · intro hlen
    unfold validateRegexSafety
    rw [if_neg (by omega), if_pos hd]

/-- C7 witness: the pattern `.*.*.*` itself is rejected. -/
theorem c7_triple_dotstar_rejected_witness :
    validateRegexSafety (fun _ => true) ".*.*.*" = ⟨false, some "正则表达式包含潜在危险模式"⟩ :=
  (c7_triple_dotstar_rejected (fun _ => true) ".*.*.*" (by decide)).2 (by decide)

/-- `xs.slice(-n)` is the identity when the array is no longer than the
window. -/
theorem sliceLastJs_of_le (n : Nat) (xs : List String) (h : xs.length ≤ n) :
    sliceLastJs n xs = xs := by
  unfold sliceLastJs
  split
  · rfl
  · have hz : xs.length - n = 0 := by omega
    rw [hz, List.drop_zero]

/-- `xs.slice(-n)` keeps at least `n` elements when the array has that
many. -/
theorem sliceLastJs_length (n : Nat) (xs : List String) (h : n ≤ xs.length) :
    n ≤ (sliceLastJs n xs).length := by
  unfold sliceLastJs
  split
  · omega
  · rw [List.length_drop]
    omega

/-- Skipping a block of non-matching lines only advances the loop index. -/
theorem metricLoop_append_nomatch (m : String → Option String) (w s : Nat)
    (rest : List String) :
    ∀ pre : List String, (∀ l ∈ pre, mguard m l = false) → ∀ i : Nat,
      metricLoop m w s i (pre ++ rest) = metricLoop m w s (i + pre.length) rest := by
  intro pre
  induction pre with
  | nil => intro _ i; simp
  | cons p ps ih =>
    intro h i
    have hp : mguard m p = false := h p (by simp)
    rw [List.cons_append, metricLoop, if_neg (by simp [hp]),
      ih (fun l hl => h l (List.mem_cons_of_mem _ hl)) (i + 1)]
    congr 1
    simp [List.length_cons]
    omega

/-- Every sample produced by the extraction loop comes from a matching
scanned line and carries the source's line-number formula. -/
theorem metricLoop_mem (m : String → Option String) (w s : Nat) :
    ∀ (xs : List String) (i : Nat) (v : MetricValue), v ∈ metricLoop m w s i xs →
      ∃ j l, xs.get? j = some l ∧ mguard m l = true
        ∧ v.lineNumber = (s : Int) - (w : Int) + ((i : Int) + (j : Int)) + 1 := by
  intro xs
  induction xs with
  | nil => intro i v hv; simp [metricLoop] at hv
  | cons x rest ih =>
    intro i v hv
    rw [metricLoop] at hv
    by_cases hg : mguard m x = true
    · rw [if_pos hg] at hv
      rcases List.mem_cons.mp hv with he | ht
      · refine ⟨0, x, rfl, hg, ?_⟩
        rw [he]
        simp
      · obtain ⟨j, l, h1, h2, h3⟩ := ih (i + 1) v ht
        refine ⟨j + 1, l, by simpa using h1, h2, ?_⟩
        rw [h3]
        push_cast
        ring
    · rw [if_neg hg] at hv
      obtain ⟨j, l, h1, h2, h3⟩ := ih (i + 1) v hv
      refine ⟨j + 1, l, by simpa using h1, h2, ?_⟩
      rw [h3]
      push_cast
      ring

/-- When the first scanned line matches, it yields the first recorded
sample, with line number `scanLen - window + i + 1`. -/
theorem metricLoop_head (m : String → Option String) (w s i : Nat) (l : String)
    (rest : List String) (hg : mguard m l = true) :
    (metricLoop m w s i (l :: rest)).head?
      = some ⟨mval m l, (s : Int) - (w : Int) + (i : Int) + 1⟩ := by
  rw [metricLoop, if_pos hg]
  rfl

/-- The `latest` field is the value of the last recorded sample. -/
theorem pm2MetricsOne_latest (m : String → Option String) (c : String) (w : Nat) :
    (pm2MetricsOne m c w).latest
      = ((pm2MetricsOne m c w).values.getLast?).map MetricValue.value := by
  unfold pm2MetricsOne
  dsimp only

/-- The `values` field is the extraction loop over the scanned window. -/
theorem pm2MetricsOne_values (m : String → Option String) (c : String) (w : Nat) :
    (pm2MetricsOne m c w).values
      = metricLoop m w (metricsScanned c w).length 0 (metricsScanned c w) := by
  unfold pm2MetricsOne
  dsimp only

/-- C8 (Metric round-trip): over any log splitting into non-matching
lines followed by `loss: 0.42`, `loss: 0.31` and the empty line of the
trailing newline, with a window covering all lines, the extraction for
the pattern `loss: ([\d.]+)` records exactly the two samples `0.42`,
`0.31` and reports latest value `0.31`. -/
theorem c8_metrics_roundtrip (content : String) (pre : List String) (window : Nat)
    (hsplit : splitCh '\n' content = pre ++ ["loss: 0.42", "loss: 0.31", ""])
    (hpre : ∀ l ∈ pre, mguard lossMatch l = false)
    (hwin : pre.length + 3 ≤ window) :
    (pm2MetricsOne lossMatch content window).values.map MetricValue.value = ["0.42", "0.31"]
    ∧ (pm2MetricsOne lossMatch content window).values.length = 2
    ∧ (pm2MetricsOne lossMatch content window).latest = some "0.31" := by
  have hlen : (pre ++ ["loss: 0.42", "loss: 0.31", ""]).length = pre.length + 3 := by
    simp
  have hscan : metricsScanned content window = pre ++ ["loss: 0.42", "loss: 0.31", ""] := by
    unfold metricsScanned
    rw [hsplit]
    exact sliceLastJs_of_le _ _ (by omega)
  have hg1 : mguard lossMatch "loss: 0.42" = true := by decide
  have hg2 : mguard lossMatch "loss: 0.31" = true := by decide
  have hg3 : ¬(mguard lossMatch "" = true) := by decide
  have hv1 : mval lossMatch "loss: 0.42" = "0.42" := by decide
  have hv2 : mval lossMatch "loss: 0.31" = "0.31" := by decide
  have hvv : (pm2MetricsOne lossMatch content window).values
      = [⟨"0.42", ((pre.length + 3 : Nat) : Int) - (window : Int)
            + ((0 + pre.length : Nat) : Int) + 1⟩,
         ⟨"0.31", ((pre.length + 3 : Nat) : Int) - (window : Int)
            + ((0 + pre.length + 1 : Nat) : Int) + 1⟩] := by
    rw [pm2MetricsOne_values, hscan, hlen,
      metricLoop_append_nomatch lossMatch window (pre.length + 3) _ pre hpre 0,
      metricLoop, if_pos hg1, metricLoop, if_pos hg2, metricLoop, if_neg hg3, metricLoop,
      hv1, hv2]
  refine ⟨by rw [hvv]; rfl, by rw [hvv]; rfl, ?_⟩
  rw [pm2MetricsOne_latest, hvv]
  rfl

/-- C8 witness: the concrete log `epoch 1\nloss: 0.42\nloss: 0.31\n`
scanned with the default window of 1000 lines. -/
theorem c8_metrics_roundtrip_witness :
    (pm2MetricsOne lossMatch "epoch 1\nloss: 0.42\nloss: 0.31\n" 1000).values.map
        MetricValue.value = ["0.42", "0.31"]
    ∧ (pm2MetricsOne lossMatch "epoch 1\nloss: 0.42\nloss: 0.31\n" 1000).values.length = 2
    ∧ (pm2MetricsOne lossMatch "epoch 1\nloss: 0.42\nloss: 0.31\n" 1000).latest
        = some "0.31" :=
  c8_metrics_roundtrip "epoch 1\nloss: 0.42\nloss: 0.31\n" ["epoch 1"] 1000
    (by decide) (by decide) (by decide)

/-- C10 (Metric line numbers): every recorded sample's line number is
`(scanned length) - window + (0-based index in the window) + 1`; when the
log has at least `window` lines every recorded line number is at least 1
(the 1-based position inside the trailing window); and when the log has
fewer lines than the window, a match on the first scanned line is
recorded with the zero-or-negative line number `L - window + 1`. -/
theorem c10_line_numbers (m : String → Option String) (content : String) (window : Nat) :
    (∀ v ∈ (pm2MetricsOne m content window).values,
      ∃ i l, (metricsScanned content window).get? i = some l ∧ mguard m l = true
        ∧ v.lineNumber
            = ((metricsScanned content window).length : Int) - (window : Int) + (i : Int) + 1)
    ∧ (window ≤ (splitCh '\n' content).length →
        ∀ v ∈ (pm2MetricsOne m content window).values, 1 ≤ v.lineNumber)
    ∧ ((splitCh '\n' content).length < window →
        ∀ l, (metricsScanned content window).get? 0 = some l → mguard m l = true →
        ((pm2MetricsOne m content window).values.head?).map MetricValue.lineNumber
            = some (((splitCh '\n' content).length : Int) - (window : Int) + 1)
        ∧ ((splitCh '\n' content).length : Int) - (window : Int) + 1 ≤ 0) := by
  have part1 : ∀ v ∈ (pm2MetricsOne m content window).values,
      ∃ i l, (metricsScanned content window).get? i = some l ∧ mguard m l = true
        ∧ v.lineNumber
            = ((metricsScanned content window).length : Int) - (window : Int) + (i : Int) + 1 := by
    intro v hv
    rw [pm2MetricsOne_values] at hv
    obtain ⟨j, l, h1, h2, h3⟩ := metricLoop_mem m window _ _ 0 v hv
    refine ⟨j, l, h1, h2, ?_⟩
    rw [h3]
    push_cast
    ring
  refine ⟨part1, ?_, ?_⟩
  · intro hw v hv
    have hbound : window ≤ (metricsScanned content window).length := by
      unfold metricsScanned
      exact sliceLastJs_length _ _ hw
    obtain ⟨i, l, _, _, h3⟩ := part1 v hv
    rw [h3]
    omega
  · intro hlt l h0 hg
    have hscan : metricsScanned content window = splitCh '\n' content := by
      unfold metricsScanned
      exact sliceLastJs_of_le _ _ (by omega)
    cases hsc : metricsScanned content window with
    | nil => rw [hsc] at h0; simp at h0
    | cons a rest =>
      rw [hsc] at h0
      simp only [List.get?_cons_zero, Option.some.injEq] at h0
      subst h0
      have hL : (splitCh '\n' content).length = (a :: rest).length := by
        rw [← hscan, hsc]
      constructor
      · rw [pm2MetricsOne_values, hsc, metricLoop_head m window _ 0 a rest hg, hL]
        simp
      · rw [hL]
        have hlen2 : (a :: rest).length < window := by omega
        simp only [List.length_cons] at hlen2 ⊢
        push_cast
        omega

/-- C10 witness: a 1-line log scanned with window 5 records its match
with line number `1 - 5 + 1 = -3 ≤ 0`, and a window-2 scan of a 4-line
log records a line number at least 1. -/
theorem c10_line_numbers_witness :
    ((pm2MetricsOne lossMatch "loss: 1" 5).values.head?).map MetricValue.lineNumber
        = some (-3)
    ∧ (1 : Int) ≤ (MetricValue.mk "2" 1).lineNumber := by
  constructor
  · have h := (c10_line_numbers lossMatch "loss: 1" 5).2.2 (by decide) "loss: 1"
      (by decide) (by decide)
    rw [h.1]
    decide
  · exact (c10_line_numbers lossMatch "a\nloss: 1\nloss: 2\n" 2).2.1 (by decide)
      ⟨"2", 1⟩ (by decide)

end Sentinel
